import Mathlib

/-!
Verification of the joint-hierarchy container (skeleton) of ozz-animation:
the packed single-buffer allocator, the store lifecycle, and the versioned
binary codec (`Skeleton::Allocate`, `Skeleton::Deallocate`, `Skeleton::Save`,
`Skeleton::Load` in `src/animation/runtime/skeleton.cc`).

The embedding models:
- the character arena as a list of bytes (a byte is a `Nat`; `0` is the NUL
  terminator);
- the fixed-up name pointers as byte offsets from the start of the character
  arena;
- bind-pose blocks (`math::SoaTransform`) as opaque values;
- the archive as a stream of typed items, matching the spec's description of
  the archive collaborator (typed 32-bit and 16-bit integer and raw
  byte/array I/O);
- the C++ integer conversions (`static_cast<int32_t>` on a `size_t`, and the
  implicit `int32_t` → `size_t` conversions at the `Allocate` call) as
  explicit wraparound arithmetic;
- allocation and release requests made to the allocation service as an
  explicit effect trace.

Sizes and alignments are those of the 64-bit SIMD target the code is written
for: `sizeof(math::SoaTransform) = 160` (ten 16-byte SIMD float4 lanes),
`alignof = 16`; `sizeof(char*) = 8`; `sizeof(int16_t) = 2`.
-/

namespace OzzSkeleton

/-- A byte of the character arena. `0` is the NUL terminator. -/
abbrev Byte := Nat

/-- Opaque bind-pose block content (`math::SoaTransform`).  The codec moves
these values verbatim and never inspects them, so the content is abstract. -/
abbrev SoaTransform := Nat

/-- One typed item of the archive stream.
Modelled from the spec: the archive collaborator is an ordered byte-stream
abstraction with typed write/read of 32-bit integers, 16-bit integers and raw
byte/array blocks; its implementation is outside the analysed source. -/
inductive Item where
  | i32 (v : Int)
  | i16 (v : Int)
  | byte (b : Byte)
  | soa (t : SoaTransform)
deriving DecidableEq, Repr

/-- An archive stream: the ordered sequence of typed items. -/
abbrev Stream := List Item

/-- `std::strlen` on the arena suffix starting at the scan position: number
of bytes before the first NUL.  (On a buffer with no terminator the C++ call
keeps reading adjacent memory; the model stops at the end of the list, which
is only relied upon for well-formed arenas.) -/
def cstrlen : List Byte → Nat
  | [] => 0
  | b :: rest => if b = 0 then 0 else cstrlen rest + 1

/-- The bytes of the C string starting at the given arena suffix (up to, not
including, the first NUL). -/
def cstrTake : List Byte → List Byte
  | [] => []
  | b :: rest => if b = 0 then [] else b :: cstrTake rest

/-- The skeleton store.  `joint_names_` holds the fixed-up name pointers as
offsets from the start of the character arena; `allocated` records whether
the arena pointer (`joint_bind_poses_.begin`) is non-null. -/
structure Skeleton where
  char_arena : List Byte
  joint_names_ : List Nat
  joint_parents_ : List Int
  joint_bind_poses_ : List SoaTransform
  allocated : Bool
deriving DecidableEq, Repr

/-- The default-constructed (empty) store: all ranges are null/empty. -/
def emptySkeleton : Skeleton :=
  { char_arena := []
    joint_names_ := []
    joint_parents_ := []
    joint_bind_poses_ := []
    allocated := false }

/-- Modelled from the spec: the `jointCount()` accessor (declared in the
header, outside the analysed source) returns the number of joints, i.e. the
count of the per-joint name views; all per-joint region counts are equal in
every reachable state. -/
def Skeleton.num_joints (s : Skeleton) : Nat := s.joint_names_.length

/-- The precondition asserted by `Allocate`: all three region views empty. -/
def Skeleton.isEmptyViews (s : Skeleton) : Bool :=
  s.joint_bind_poses_.isEmpty && s.joint_names_.isEmpty && s.joint_parents_.isEmpty

/-- The name string of joint `i`, read from the arena at its offset. -/
def Skeleton.names (s : Skeleton) : List (List Byte) :=
  s.joint_names_.map (fun off => cstrTake (s.char_arena.drop off))

/-- `sizeof(math::SoaTransform)` on the modelled target. -/
def sizeof_SoaTransform : Nat := 160
/-- `alignof(math::SoaTransform)` on the modelled target. -/
def alignof_SoaTransform : Nat := 16
/-- `sizeof(char*)` on the modelled target. -/
def sizeof_charptr : Nat := 8
/-- `alignof(char*)` on the modelled target. -/
def alignof_charptr : Nat := 8
/-- `sizeof(int16_t)`. -/
def sizeof_int16 : Nat := 2
/-- `alignof(int16_t)`. -/
def alignof_int16 : Nat := 2

/-- `joint_bind_poses_size = (_num_joints + 3) / 4 * sizeof(math::SoaTransform)`. -/
def bind_poses_size (num_joints : Nat) : Nat :=
  (num_joints + 3) / 4 * sizeof_SoaTransform

/-- `names_size = _num_joints * sizeof(char*)`. -/
def names_size (num_joints : Nat) : Nat := num_joints * sizeof_charptr

/-- `joint_parents_size = _num_joints * sizeof(int16_t)`. -/
def parents_size (num_joints : Nat) : Nat := num_joints * sizeof_int16

/-- `buffer_size = names_size + _chars_size + joint_parents_size +
joint_bind_poses_size`. -/
def buffer_size (chars_size num_joints : Nat) : Nat :=
  names_size num_joints + chars_size + parents_size num_joints +
    bind_poses_size num_joints

/-- Byte offsets of the four regions inside the single buffer, and its total
size. -/
structure Layout where
  bind_off : Nat
  names_off : Nat
  parents_off : Nat
  chars_off : Nat
  total : Nat
deriving DecidableEq, Repr

/-- The region offsets produced by `Allocate`'s cursor bumping: bind poses
first, then name views, then parent indices, then the character arena. -/
def layout (chars_size num_joints : Nat) : Layout :=
  { bind_off := 0
    names_off := bind_poses_size num_joints
    parents_off := bind_poses_size num_joints + names_size num_joints
    chars_off := bind_poses_size num_joints + names_size num_joints +
      parents_size num_joints
    total := buffer_size chars_size num_joints }

/-- `Skeleton::Allocate(_chars_size, _num_joints)`.

Returns `none` when the asserted precondition (all views empty) fails.
Otherwise returns the store with its views sized as allocated (contents
uninitialized, modelled as zeros), the returned cursor as an offset into the
buffer (`none` models the `NULL` return of the zero-joint early out), and the
list of (size, alignment) requests made to the allocation service.  The
recorded request size is the mathematical value of the size expression; the
program computes it in wrapping `size_t` arithmetic, which agrees with it for
every representable total (below 2^64), and the theorems that assert a
request size only cover such inputs. -/
def Skeleton.allocate (s : Skeleton) (chars_size num_joints : Nat) :
    Option (Skeleton × Option Nat × List (Nat × Nat)) :=
  if s.isEmptyViews then
    if num_joints = 0 then
      some (s, none, [])
    else
      some
        ({ char_arena := List.replicate chars_size 0
           joint_names_ := List.replicate num_joints 0
           joint_parents_ := List.replicate num_joints 0
           joint_bind_poses_ := List.replicate ((num_joints + 3) / 4) 0
           allocated := true },
         some (bind_poses_size num_joints + names_size num_joints +
           parents_size num_joints),
         [(buffer_size chars_size num_joints, alignof_SoaTransform)])
  else none

/-- `Skeleton::Deallocate()`: one unconditional release call to the
allocation service passing `joint_bind_poses_.begin` (the boolean in the
returned list records whether that pointer was non-null), then all views are
cleared.  The freed buffer also held the character arena. -/
def Skeleton.deallocate (s : Skeleton) : Skeleton × List Bool :=
  (emptySkeleton, [s.allocated])

/-- `static_cast<int32_t>` of a value, as wraparound on the mathematical
integer. -/
def toInt32 (v : Int) : Int := (v + 2 ^ 31) % 2 ^ 32 - 2 ^ 31

/-- Conversion of a signed value to `size_t` (64-bit), as used implicitly at
the `Allocate(chars_count, num_joints)` call and at `MakeArray(cursor,
chars_count)`. -/
def toSizeT (v : Int) : Nat := (v % 2 ^ 64).toNat

/-- `Skeleton::Save`: writes `num_joints` as int32; if non-zero, writes
`chars_count` (the summed `strlen + 1` over all joints) cast to int32, then
`chars_count` raw bytes starting at the position of `joint_names_[0]`, then
the parent-index array, then the bind-pose array. -/
def save (s : Skeleton) : Stream :=
  let num_joints : Int := toInt32 (s.num_joints : Int)
  Item.i32 num_joints ::
    (if num_joints = 0 then []
     else
       let chars_count : Nat :=
         (s.joint_names_.map
           (fun off => cstrlen (s.char_arena.drop off) + 1)).sum
       Item.i32 (toInt32 (chars_count : Int)) ::
         (((s.char_arena.drop (s.joint_names_.headD 0)).take chars_count).map
             Item.byte ++
           s.joint_parents_.map Item.i16 ++
           s.joint_bind_poses_.map Item.soa))

/-- Read one int32 item from the stream. Modelled from the spec: typed
archive read. -/
def readI32 : Stream → Option (Int × Stream)
  | Item.i32 v :: rest => some (v, rest)
  | _ => none

/-- Read `n` raw bytes from the stream. Modelled from the spec: raw array
archive read; fails explicitly when the stream does not hold them. -/
def readBytes : Nat → Stream → Option (List Byte × Stream)
  | 0, st => some ([], st)
  | n + 1, Item.byte b :: rest =>
    match readBytes n rest with
    | some (bs, st) => some (b :: bs, st)
    | none => none
  | _ + 1, _ => none

/-- Read `n` int16 items from the stream. Modelled from the spec: typed
archive array read. -/
def readI16s : Nat → Stream → Option (List Int × Stream)
  | 0, st => some ([], st)
  | n + 1, Item.i16 v :: rest =>
    match readI16s n rest with
    | some (vs, st) => some (v :: vs, st)
    | none => none
  | _ + 1, _ => none

/-- Read `n` bind-pose blocks from the stream. Modelled from the spec: typed
archive array read. -/
def readSoas : Nat → Stream → Option (List SoaTransform × Stream)
  | 0, st => some ([], st)
  | n + 1, Item.soa t :: rest =>
    match readSoas n rest with
    | some (ts, st) => some (t :: ts, st)
    | none => none
  | _ + 1, _ => none

/-- The name fix-up loop body of `Skeleton::Load`, run `k` times: record the
cursor as the next name's offset, then advance the cursor past the next NUL
(`strlen + 1` bytes).  Returns the recorded offsets and the final cursor. -/
def fixupAux (arena : List Byte) (cursor : Nat) : Nat → List Nat × Nat
  | 0 => ([], cursor)
  | k + 1 =>
    let r := fixupAux arena (cursor + (cstrlen (arena.drop cursor) + 1)) k
    (cursor :: r.1, r.2)

/-- The full name fix-up of `Skeleton::Load`: the loop runs `loopCount`
(`num_joints - 1`) times, then the last joint's offset is assigned the final
cursor without a further terminator search. -/
def fixupNames (arena : List Byte) (loopCount : Nat) : List Nat :=
  let r := fixupAux arena 0 loopCount
  r.1 ++ [r.2]

/-- The byte positions examined by the fix-up's terminator searches: the scan
starting at `cursor` examines `cursor .. cursor + strlen` (the terminator
included), and there are `k` scans.  The last joint's assignment examines no
byte. -/
def scanPositions (arena : List Byte) (cursor : Nat) : Nat → List Nat
  | 0 => []
  | k + 1 =>
    (List.range (cstrlen (arena.drop cursor) + 1)).map (cursor + ·) ++
      scanPositions arena (cursor + (cstrlen (arena.drop cursor) + 1)) k

/-- Outcome of a load: normal return with the resulting store and remaining
stream, an archive stream error, or a failure of `Allocate`'s assertion. -/
inductive LoadStatus where
  | ok (s : Skeleton) (rest : Stream)
  | streamError
  | assertFail
deriving DecidableEq, Repr

/-- Effect trace of a load: allocation requests (size, alignment) made to
the allocation service, release calls (argument non-null?), diagnostics
emitted, and the (charsSize, numJoints) argument pairs of the `Allocate`
invocations made.  `allocCalls` records the call arguments themselves,
independent of any size arithmetic. -/
structure Trace where
  allocs : List (Nat × Nat)
  releases : List Bool
  diags : Nat
  allocCalls : List (Nat × Nat) := []
deriving DecidableEq, Repr

/-- The tail of `Skeleton::Load` after the `Allocate` call: read the
`chars_count` raw name bytes into the character region, fix up the name
offsets (the loop runs `num_joints - 1` times in `int` arithmetic), then
read the parent-index array and the bind-pose array at the sizes the views
were allocated with. -/
def loadRest (s : Skeleton) (chars_size : Nat) (num_joints : Int)
    (st : Stream) : LoadStatus :=
  match readBytes chars_size st with
  | none => .streamError
  | some (chars, st1) =>
    match readI16s s.joint_parents_.length st1 with
    | none => .streamError
    | some (parents, st2) =>
      match readSoas s.joint_bind_poses_.length st2 with
      | none => .streamError
      | some (poses, st3) =>
        .ok
          { char_arena := chars
            joint_names_ := fixupNames chars (num_joints - 1).toNat
            joint_parents_ := parents
            joint_bind_poses_ := poses
            allocated := s.allocated } st3

/-- `Skeleton::Load(_archive, _version)`: deallocate unconditionally; reject
any version other than 2 with a diagnostic; read `num_joints` and return an
empty store when it is zero; otherwise read `chars_count`, call `Allocate`
with both counts converted to `size_t`, and run the remaining reads. -/
def load (s0 : Skeleton) (version : Nat) (st : Stream) :
    LoadStatus × Trace :=
  if version ≠ 2 then
    (.ok (s0.deallocate).1 st,
     { allocs := [], releases := (s0.deallocate).2, diags := 1 })
  else
    match readI32 st with
    | none =>
      (.streamError,
       { allocs := [], releases := (s0.deallocate).2, diags := 0 })
    | some (num_joints, st1) =>
      if num_joints = 0 then
        (.ok (s0.deallocate).1 st1,
         { allocs := [], releases := (s0.deallocate).2, diags := 0 })
      else
        match readI32 st1 with
        | none =>
          (.streamError,
           { allocs := [], releases := (s0.deallocate).2, diags := 0 })
        | some (chars_count, st2) =>
          match (s0.deallocate).1.allocate (toSizeT chars_count)
              (toSizeT num_joints) with
          | none =>
            (.assertFail,
             { allocs := []
               releases := (s0.deallocate).2
               diags := 0
               allocCalls := [(toSizeT chars_count, toSizeT num_joints)] })
          | some (s1, _cursor, allocs) =>
            (loadRest s1 (toSizeT chars_count) num_joints st2,
             { allocs := allocs
               releases := (s0.deallocate).2
               diags := 0
               allocCalls := [(toSizeT chars_count, toSizeT num_joints)] })

/-- The concatenated character arena of a list of names: each name followed
by its NUL terminator. -/
def flat : List (List Byte) → List Byte
  | [] => []
  | nm :: rest => nm ++ 0 :: flat rest

/-- Total size in bytes of the concatenated arena: sum of `length + 1`. -/
def flatLen : List (List Byte) → Nat
  | [] => 0
  | nm :: rest => nm.length + 1 + flatLen rest

/-- The start offsets of consecutive names inside the concatenated arena,
beginning at `cursor`. -/
def startOffsets (cursor : Nat) : List (List Byte) → List Nat
  | [] => []
  | nm :: rest => cursor :: startOffsets (cursor + (nm.length + 1)) rest

/-- The well-formed populated store holding the given names (in a
concatenated arena with correct offsets), parent indices and bind-pose
blocks; for zero joints it is the empty store. -/
def mkSkeleton (names : List (List Byte)) (parents : List Int)
    (poses : List SoaTransform) : Skeleton :=
  { char_arena := flat names
    joint_names_ := startOffsets 0 names
    joint_parents_ := parents
    joint_bind_poses_ := poses
    allocated := !names.isEmpty }

end OzzSkeleton

namespace OzzSkeleton

/-! ## Supporting lemmas -/

theorem cstrlen_append_nul (nm rest : List Byte) (h : 0 ∉ nm) :
    cstrlen (nm ++ 0 :: rest) = nm.length := by
  induction nm with
  | nil => simp [cstrlen]
  | cons b bs ih =>
    have hb : b ≠ 0 := by
      intro e
      exact h (by simp [e])
    have hbs : 0 ∉ bs := fun m => h (List.mem_cons_of_mem _ m)
    simp [cstrlen, hb, ih hbs]

theorem cstrTake_append_nul (nm rest : List Byte) (h : 0 ∉ nm) :
    cstrTake (nm ++ 0 :: rest) = nm := by
  induction nm with
  | nil => simp [cstrTake]
  | cons b bs ih =>
    have hb : b ≠ 0 := by
      intro e
      exact h (by simp [e])
    have hbs : 0 ∉ bs := fun m => h (List.mem_cons_of_mem _ m)
    simp [cstrTake, hb, ih hbs]

theorem flat_append (a b : List (List Byte)) :
    flat (a ++ b) = flat a ++ flat b := by
  induction a with
  | nil => simp [flat]
  | cons nm rest ih => simp [flat, ih]

theorem flatLen_append (a b : List (List Byte)) :
    flatLen (a ++ b) = flatLen a + flatLen b := by
  induction a with
  | nil => simp [flatLen]
  | cons nm rest ih => simp [flatLen, ih]; omega

theorem flat_length (names : List (List Byte)) :
    (flat names).length = flatLen names := by
  induction names with
  | nil => simp [flat, flatLen]
  | cons nm rest ih => simp [flat, flatLen, ih]; omega

theorem startOffsets_length (names : List (List Byte)) :
    ∀ cursor, (startOffsets cursor names).length = names.length := by
  induction names with
  | nil => intro cursor; simp [startOffsets]
  | cons nm rest ih => intro cursor; simp [startOffsets, ih]

theorem startOffsets_append (a b : List (List Byte)) :
    ∀ cursor, startOffsets cursor (a ++ b) =
      startOffsets cursor a ++ startOffsets (cursor + flatLen a) b := by
  induction a with
  | nil => intro cursor; simp [startOffsets, flatLen]
  | cons nm rest ih =>
    intro cursor
    simp [startOffsets, flatLen, ih, Nat.add_assoc]

theorem readBytes_map (bs : List Byte) (rest : Stream) :
    readBytes bs.length (bs.map Item.byte ++ rest) = some (bs, rest) := by
  induction bs with
  | nil => simp [readBytes]
  | cons b bt ih => simp [readBytes, ih]

theorem readI16s_map (vs : List Int) (rest : Stream) :
    readI16s vs.length (vs.map Item.i16 ++ rest) = some (vs, rest) := by
  induction vs with
  | nil => simp [readI16s]
  | cons v vt ih => simp [readI16s, ih]

theorem readSoas_map (ts : List SoaTransform) (rest : Stream) :
    readSoas ts.length (ts.map Item.soa ++ rest) = some (ts, rest) := by
  induction ts with
  | nil => simp [readSoas]
  | cons t tt ih => simp [readSoas, ih]

theorem readBytes_short :
    ∀ (n : Nat) (st : Stream), st.length < n → readBytes n st = none := by
  intro n
  induction n with
  | zero => intro st h; exact absurd h (Nat.not_lt_zero _)
  | succ m ih =>
    intro st h
    cases st with
    | nil => rfl
    | cons it rest =>
      cases it with
      | i32 v => rfl
      | i16 v => rfl
      | soa t => rfl
      | byte b =>
        have : rest.length < m := by simpa using h
        simp [readBytes, ih rest this]

theorem fixupAux_flat :
    ∀ (names : List (List Byte)) (arena tail : List Byte) (cursor : Nat),
    (∀ nm ∈ names, 0 ∉ nm) →
    arena.drop cursor = flat names ++ tail →
    fixupAux arena cursor names.length =
      (startOffsets cursor names, cursor + flatLen names) := by
  intro names
  induction names with
  | nil =>
    intro arena tail cursor _ _
    simp [fixupAux, startOffsets, flatLen]
  | cons nm rest ih =>
    intro arena tail cursor hz hdrop
    have hdrop' : arena.drop cursor = nm ++ 0 :: (flat rest ++ tail) := by
      simpa [flat] using hdrop
    have hlen : cstrlen (arena.drop cursor) = nm.length := by
      rw [hdrop']
      exact cstrlen_append_nul nm _ (hz nm (by simp))
    have hnext : arena.drop (cursor + (nm.length + 1)) = flat rest ++ tail := by
      have h1 : arena.drop (cursor + (nm.length + 1)) =
          (arena.drop cursor).drop (nm.length + 1) := by
        rw [List.drop_drop]
      rw [h1, hdrop']
      have h2 : nm ++ 0 :: (flat rest ++ tail) =
          (nm ++ [0]) ++ (flat rest ++ tail) := by simp
      rw [h2]
      have h3 : nm.length + 1 = (nm ++ [0]).length := by simp
      rw [h3, List.drop_left]
    have hzr : ∀ x ∈ rest, 0 ∉ x := fun x m => hz x (by simp [m])
    have hrec := ih arena tail (cursor + (nm.length + 1)) hzr hnext
    simp only [List.length_cons, fixupAux, hlen, hrec, startOffsets, flatLen]
    have hadd : cursor + (nm.length + 1) + flatLen rest =
        cursor + (nm.length + 1 + flatLen rest) := by omega
    rw [hadd]

theorem sum_strlen_flat :
    ∀ (names : List (List Byte)) (arena tail : List Byte) (cursor : Nat),
    (∀ nm ∈ names, 0 ∉ nm) →
    arena.drop cursor = flat names ++ tail →
    ((startOffsets cursor names).map
        (fun off => cstrlen (arena.drop off) + 1)).sum = flatLen names := by
  intro names
  induction names with
  | nil =>
    intro arena tail cursor _ _
    simp [startOffsets, flatLen]
  | cons nm rest ih =>
    intro arena tail cursor hz hdrop
    have hdrop' : arena.drop cursor = nm ++ 0 :: (flat rest ++ tail) := by
      simpa [flat] using hdrop
    have hlen : cstrlen (arena.drop cursor) = nm.length := by
      rw [hdrop']
      exact cstrlen_append_nul nm _ (hz nm (by simp))
    have hnext : arena.drop (cursor + (nm.length + 1)) = flat rest ++ tail := by
      have h1 : arena.drop (cursor + (nm.length + 1)) =
          (arena.drop cursor).drop (nm.length + 1) := by
        rw [List.drop_drop]
      rw [h1, hdrop']
      have h2 : nm ++ 0 :: (flat rest ++ tail) =
          (nm ++ [0]) ++ (flat rest ++ tail) := by simp
      rw [h2]
      have h3 : nm.length + 1 = (nm ++ [0]).length := by simp
      rw [h3, List.drop_left]
    have hzr : ∀ x ∈ rest, 0 ∉ x := fun x m => hz x (by simp [m])
    have hrec := ih arena tail (cursor + (nm.length + 1)) hzr hnext
    simp only [startOffsets, List.map_cons, List.sum_cons, hlen, hrec, flatLen]

theorem names_map_flat :
    ∀ (names : List (List Byte)) (arena tail : List Byte) (cursor : Nat),
    (∀ nm ∈ names, 0 ∉ nm) →
    arena.drop cursor = flat names ++ tail →
    (startOffsets cursor names).map (fun off => cstrTake (arena.drop off)) =
      names := by
  intro names
  induction names with
  | nil =>
    intro arena tail cursor _ _
    simp [startOffsets]
  | cons nm rest ih =>
    intro arena tail cursor hz hdrop
    have hdrop' : arena.drop cursor = nm ++ 0 :: (flat rest ++ tail) := by
      simpa [flat] using hdrop
    have htake : cstrTake (arena.drop cursor) = nm := by
      rw [hdrop']
      exact cstrTake_append_nul nm _ (hz nm (by simp))
    have hnext : arena.drop (cursor + (nm.length + 1)) = flat rest ++ tail := by
      have h1 : arena.drop (cursor + (nm.length + 1)) =
          (arena.drop cursor).drop (nm.length + 1) := by
        rw [List.drop_drop]
      rw [h1, hdrop']
      have h2 : nm ++ 0 :: (flat rest ++ tail) =
          (nm ++ [0]) ++ (flat rest ++ tail) := by simp
      rw [h2]
      have h3 : nm.length + 1 = (nm ++ [0]).length := by simp
      rw [h3, List.drop_left]
    have hzr : ∀ x ∈ rest, 0 ∉ x := fun x m => hz x (by simp [m])
    have hrec := ih arena tail (cursor + (nm.length + 1)) hzr hnext
    simp only [startOffsets, List.map_cons, htake, hrec]

theorem scanPositions_flat :
    ∀ (names : List (List Byte)) (arena tail : List Byte) (cursor : Nat),
    (∀ nm ∈ names, 0 ∉ nm) →
    arena.drop cursor = flat names ++ tail →
    ∀ p ∈ scanPositions arena cursor names.length, p < cursor + flatLen names := by
  intro names
  induction names with
  | nil =>
    intro arena tail cursor _ _ p hp
    simp [scanPositions] at hp
  | cons nm rest ih =>
    intro arena tail cursor hz hdrop p hp
    have hdrop' : arena.drop cursor = nm ++ 0 :: (flat rest ++ tail) := by
      simpa [flat] using hdrop
    have hlen : cstrlen (arena.drop cursor) = nm.length := by
      rw [hdrop']
      exact cstrlen_append_nul nm _ (hz nm (by simp))
    have hnext : arena.drop (cursor + (nm.length + 1)) = flat rest ++ tail := by
      have h1 : arena.drop (cursor + (nm.length + 1)) =
          (arena.drop cursor).drop (nm.length + 1) := by
        rw [List.drop_drop]
      rw [h1, hdrop']
      have h2 : nm ++ 0 :: (flat rest ++ tail) =
          (nm ++ [0]) ++ (flat rest ++ tail) := by simp
      rw [h2]
      have h3 : nm.length + 1 = (nm ++ [0]).length := by simp
      rw [h3, List.drop_left]
    have hzr : ∀ x ∈ rest, 0 ∉ x := fun x m => hz x (by simp [m])
    simp only [List.length_cons, scanPositions, hlen, List.mem_append,
      List.mem_map, List.mem_range] at hp
    rcases hp with ⟨j, hj, rfl⟩ | hp
    · simp only [flatLen]
      omega
    · have := ih arena tail (cursor + (nm.length + 1)) hzr hnext p hp
      simp only [flatLen]
      omega

end OzzSkeleton

namespace OzzSkeleton

theorem toInt32_small (v : Int) (h1 : 0 ≤ v) (h2 : v < 2 ^ 31) :
    toInt32 v = v := by
  unfold toInt32
  omega

theorem toSizeT_small (v : Int) (h1 : 0 ≤ v) (h2 : v < 2 ^ 64) :
    toSizeT v = v.toNat := by
  unfold toSizeT
  omega

theorem allocate_of_empty (s : Skeleton) (a b : Nat)
    (h : s.isEmptyViews = true) : s.allocate a b ≠ none := by
  simp only [Skeleton.allocate, h, if_true]
  split <;> simp

theorem loadRest_ne_assertFail (s : Skeleton) (cs : Nat) (nj : Int)
    (st : Stream) : loadRest s cs nj st ≠ LoadStatus.assertFail := by
  unfold loadRest
  split
  · simp
  · split
    · simp
    · split <;> simp

/-! ## Claim theorems -/

/-- C3: for every stream whose version tag is not 2 and any store and
subsequent bytes, the load emits one diagnostic, consumes nothing from the
stream (in particular it does not read jointCount), performs no allocation,
and returns the empty store (jointCount 0). -/
theorem version_reject (s : Skeleton) (version : Nat) (st : Stream)
    (h : version ≠ 2) :
    load s version st =
      (.ok emptySkeleton st,
       { allocs := [], releases := [s.allocated], diags := 1 }) ∧
    emptySkeleton.num_joints = 0 :=
  ⟨by simp [load, Skeleton.deallocate, h], rfl⟩

/-- Witness for C3 at version 3. -/
theorem version_reject_witness :
    (3 ≠ 2) ∧
    (load emptySkeleton 3 [Item.i32 9] =
      (.ok emptySkeleton [Item.i32 9],
       { allocs := [], releases := [false], diags := 1 }) ∧
     emptySkeleton.num_joints = 0) :=
  ⟨by decide, version_reject emptySkeleton 3 [Item.i32 9] (by decide)⟩

/-- C4: `Allocate` with jointCount 0 on an empty store performs no
allocation, leaves all regions empty (the store unchanged, with zero
joints), and returns the null cursor, for every charBytes value. -/
theorem allocate_zero_joints (s : Skeleton) (chars_size : Nat)
    (h : s.isEmptyViews = true) :
    s.allocate chars_size 0 = some (s, none, []) ∧ s.num_joints = 0 := by
  constructor
  · simp [Skeleton.allocate, h]
  · have h' := h
    simp only [Skeleton.isEmptyViews, Bool.and_eq_true,
      List.isEmpty_iff] at h'
    simp [Skeleton.num_joints, h'.1.2]

/-- Witness for C4 at charBytes 7 on the empty store. -/
theorem allocate_zero_joints_witness :
    emptySkeleton.isEmptyViews = true ∧
    (emptySkeleton.allocate 7 0 = some (emptySkeleton, none, []) ∧
      emptySkeleton.num_joints = 0) :=
  ⟨by decide, allocate_zero_joints emptySkeleton 7 (by decide)⟩

/-- C5 counterexample: `Deallocate` on the already-empty store does issue a
release call to the allocation service (with the null arena pointer), so
"makes no release call in the empty case" fails on the code. -/
theorem clear_empty_store_release_call :
    (Skeleton.deallocate emptySkeleton).2 ≠ [] ∧
    (Skeleton.deallocate emptySkeleton).2 = [false] := by
  decide

/-- C5 amended: `Deallocate` always issues exactly one release call, passing
the current arena pointer (null exactly when the store holds no arena); it
always resets the store to the empty state, so its effect on store state is
idempotent, and after any `Deallocate` all region views are empty. -/
theorem clear_idempotent_state (s : Skeleton) :
    (s.deallocate).1 = emptySkeleton ∧
    (s.deallocate).2 = [s.allocated] ∧
    ((s.deallocate).1.deallocate).1 = (s.deallocate).1 ∧
    ((s.deallocate).1.deallocate).2 = [false] ∧
    (s.deallocate).1.isEmptyViews = true ∧
    (s.deallocate).1.num_joints = 0 :=
  ⟨rfl, rfl, rfl, rfl, rfl, rfl⟩

/-- C6: for every jointCount > 0 and charBytes, `Allocate` computes the
bind-pose block count `(N + 3) / 4` (the ceiling of N/4, as the last two
conjuncts characterize), sizes the regions as blockCount × 160, N × 8 and
N × 2 bytes, and requests exactly one allocation of the summed size aligned
to the bind-pose block alignment. -/
theorem allocate_sizing (s : Skeleton) (chars_size num_joints : Nat)
    (hs : s.isEmptyViews = true) (hn : 0 < num_joints) :
    s.allocate chars_size num_joints =
      some
        ({ char_arena := List.replicate chars_size 0
           joint_names_ := List.replicate num_joints 0
           joint_parents_ := List.replicate num_joints 0
           joint_bind_poses_ := List.replicate ((num_joints + 3) / 4) 0
           allocated := true },
         some ((layout chars_size num_joints).chars_off),
         [(buffer_size chars_size num_joints, alignof_SoaTransform)]) ∧
    (List.replicate ((num_joints + 3) / 4) (0 : SoaTransform)).length =
      (num_joints + 3) / 4 ∧
    bind_poses_size num_joints = (num_joints + 3) / 4 * sizeof_SoaTransform ∧
    names_size num_joints = num_joints * sizeof_charptr ∧
    parents_size num_joints = num_joints * sizeof_int16 ∧
    buffer_size chars_size num_joints =
      bind_poses_size num_joints + names_size num_joints +
        parents_size num_joints + chars_size ∧
    num_joints ≤ 4 * ((num_joints + 3) / 4) ∧
    4 * ((num_joints + 3) / 4) < num_joints + 4 := by
  refine ⟨?_, by simp, rfl, rfl, rfl, ?_, by omega, by omega⟩
  · simp [Skeleton.allocate, hs, Nat.pos_iff_ne_zero.mp hn, layout]
  · unfold buffer_size
    omega

/-- Witness for C6 at charBytes 3, jointCount 5. -/
theorem allocate_sizing_witness :
    emptySkeleton.isEmptyViews = true ∧ 0 < 5 ∧
    emptySkeleton.allocate 3 5 =
      some
        ({ char_arena := List.replicate 3 0
           joint_names_ := List.replicate 5 0
           joint_parents_ := List.replicate 5 0
           joint_bind_poses_ := List.replicate ((5 + 3) / 4) 0
           allocated := true },
         some ((layout 3 5).chars_off),
         [(buffer_size 3 5, alignof_SoaTransform)]) :=
  ⟨by decide, by decide,
    (allocate_sizing emptySkeleton 3 5 (by decide) (by decide)).1⟩

/-- C7: for every jointCount > 0, charBytes, and 16-byte-aligned buffer
base address, the regions lie in address order bind poses, name views,
parent indices, character arena with each offset exactly the sum of the
preceding region sizes (no inter-region padding, the four regions filling
the buffer exactly), and the start address of each typed region satisfies
its element type's alignment. -/
theorem layout_alignment (chars_size num_joints base : Nat)
    (hn : 0 < num_joints) (hb : base % 16 = 0) :
    (layout chars_size num_joints).bind_off = 0 ∧
    (layout chars_size num_joints).names_off =
      (layout chars_size num_joints).bind_off + bind_poses_size num_joints ∧
    (layout chars_size num_joints).parents_off =
      (layout chars_size num_joints).names_off + names_size num_joints ∧
    (layout chars_size num_joints).chars_off =
      (layout chars_size num_joints).parents_off + parents_size num_joints ∧
    (layout chars_size num_joints).chars_off + chars_size =
      (layout chars_size num_joints).total ∧
    (layout chars_size num_joints).bind_off <
      (layout chars_size num_joints).names_off ∧
    (layout chars_size num_joints).names_off <
      (layout chars_size num_joints).parents_off ∧
    (layout chars_size num_joints).parents_off <
      (layout chars_size num_joints).chars_off ∧
    (base + (layout chars_size num_joints).bind_off) %
      alignof_SoaTransform = 0 ∧
    (base + (layout chars_size num_joints).names_off) %
      alignof_charptr = 0 ∧
    (base + (layout chars_size num_joints).parents_off) %
      alignof_int16 = 0 := by
  simp only [layout, buffer_size, bind_poses_size, names_size, parents_size,
    sizeof_SoaTransform, sizeof_charptr, sizeof_int16, alignof_SoaTransform,
    alignof_charptr, alignof_int16]
  generalize hk : (num_joints + 3) / 4 = k
  refine ⟨?_, ?_, ?_, ?_, ?_, ?_, ?_, ?_, ?_, ?_, ?_⟩ <;>
    first
    | trivial
    | omega

/-- Witness for C7 at charBytes 1, jointCount 1, base 16. -/
theorem layout_alignment_witness :
    0 < 1 ∧ 16 % 16 = 0 ∧
    (16 + (layout 1 1).names_off) % alignof_charptr = 0 ∧
    (16 + (layout 1 1).parents_off) % alignof_int16 = 0 :=
  ⟨by decide, by decide,
    (layout_alignment 1 1 16 (by decide) (by decide)).2.2.2.2.2.2.2.2.2.1,
    (layout_alignment 1 1 16 (by decide) (by decide)).2.2.2.2.2.2.2.2.2.2⟩

/-- C10: the load path can never trip `Allocate`'s empty-store assertion,
because the store is unconditionally deallocated first, which leaves all
three region views empty. -/
theorem load_assert_holds (s : Skeleton) (version : Nat) (st : Stream) :
    (load s version st).1 ≠ LoadStatus.assertFail ∧
    (s.deallocate).1.isEmptyViews = true := by
  refine ⟨?_, rfl⟩
  unfold load
  split
  · simp
  · split
    · simp
    · split
      · simp
      · split
        · simp
        · split
          · rename_i heq
            exact absurd heq (allocate_of_empty _ _ _ rfl)
          · exact loadRest_ne_assertFail _ _ _ _

end OzzSkeleton

namespace OzzSkeleton

theorem toInt32_zero : toInt32 0 = 0 := by decide

theorem fixupNames_flat (names : List (List Byte)) (hne : names ≠ [])
    (hz : ∀ x ∈ names, 0 ∉ x) :
    fixupNames (flat names) (names.length - 1) = startOffsets 0 names := by
  obtain ⟨front, last, rfl⟩ := (List.eq_nil_or_concat names).resolve_left hne
  simp only [List.concat_eq_append] at hz ⊢
  have hlen1 : (front ++ [last]).length - 1 = front.length := by simp
  have hdrop : (flat (front ++ [last])).drop 0 =
      flat front ++ (last ++ [0]) := by
    simp [flat_append, flat]
  have hzf : ∀ x ∈ front, 0 ∉ x := fun x m => hz x (by simp [m])
  have hfix := fixupAux_flat front (flat (front ++ [last])) (last ++ [0]) 0
    hzf hdrop
  rw [hlen1]
  unfold fixupNames
  rw [hfix, startOffsets_append]
  simp [startOffsets]

theorem scan_bounded (front : List (List Byte)) (last : List Byte)
    (hzf : ∀ x ∈ front, 0 ∉ x) :
    ∀ p ∈ scanPositions (flat (front ++ [last])) 0 front.length,
      p < (flat (front ++ [last])).length := by
  intro p hp
  have hdrop : (flat (front ++ [last])).drop 0 =
      flat front ++ (last ++ [0]) := by
    simp [flat_append, flat]
  have hb := scanPositions_flat front (flat (front ++ [last]))
    (last ++ [0]) 0 hzf hdrop p hp
  have hl : (flat (front ++ [last])).length =
      flatLen front + (last.length + 1) := by
    rw [flat_length, flatLen_append]
    simp [flatLen]
  omega

/-- C2: on a well-formed character region holding jointCount
null-terminated names (jointCount > 0, written `front ++ [last]`), the name
fix-up records exactly the concatenated-name start offsets, scanning
forward with strlen for joints 0 .. jointCount−2 and assigning the last
joint the reached position (the start of the last name) without a further
terminator search, and every byte position examined by the scans lies
strictly inside the charBytes-sized region. -/
theorem name_fixup (front : List (List Byte)) (last : List Byte)
    (h1 : ∀ nm ∈ front, 0 ∉ nm) (h2 : 0 ∉ last) :
    fixupNames (flat (front ++ [last])) ((front ++ [last]).length - 1) =
      startOffsets 0 (front ++ [last]) ∧
    (startOffsets 0 (front ++ [last])).getLastD 0 = flatLen front ∧
    (∀ p ∈ scanPositions (flat (front ++ [last])) 0
        ((front ++ [last]).length - 1),
      p < (flat (front ++ [last])).length) := by
  have hlen1 : (front ++ [last]).length - 1 = front.length := by simp
  refine ⟨fixupNames_flat (front ++ [last]) (by simp) ?_, ?_, ?_⟩
  · intro x m
    rcases List.mem_append.mp m with hm | hm
    · exact h1 x hm
    · simpa [List.mem_singleton.mp hm] using h2
  · rw [startOffsets_append]
    simp [startOffsets]
  · rw [hlen1]
    exact scan_bounded front last h1

/-- Witness for C2 with names "a" and "b". -/
theorem name_fixup_witness :
    (∀ nm ∈ ([[97]] : List (List Byte)), 0 ∉ nm) ∧
    (0 ∉ ([98] : List Byte)) ∧
    (fixupNames (flat ([[97]] ++ [[98]]))
        ((([[97]] : List (List Byte)) ++ [[98]]).length - 1) =
      startOffsets 0 ([[97]] ++ [[98]]) ∧
    (startOffsets 0 ([[97]] ++ [[98]])).getLastD 0 = flatLen [[97]] ∧
    (∀ p ∈ scanPositions (flat ([[97]] ++ [[98]])) 0
        ((([[97]] : List (List Byte)) ++ [[98]]).length - 1),
      p < (flat ([[97]] ++ [[98]])).length)) :=
  ⟨by decide, by decide, name_fixup [[97]] [98] (by decide) (by decide)⟩

/-- C8: serializing a zero-joint store writes exactly one 32-bit integer of
value 0 and nothing else, and deserializing that record at version 2 leaves
the store empty and performs no allocation. -/
theorem empty_record (s s0 : Skeleton) (h : s.num_joints = 0) :
    save s = [Item.i32 0] ∧
    load s0 2 [Item.i32 0] =
      (.ok emptySkeleton [],
       { allocs := [], releases := [s0.allocated], diags := 0 }) := by
  constructor
  · simp [save, h, toInt32_zero]
  · simp [load, Skeleton.deallocate, readI32]

/-- Witness for C8 on the empty store. -/
theorem empty_record_witness :
    emptySkeleton.num_joints = 0 ∧
    (save emptySkeleton = [Item.i32 0] ∧
     load emptySkeleton 2 [Item.i32 0] =
       (.ok emptySkeleton [],
        { allocs := [], releases := [false], diags := 0 })) :=
  ⟨by decide, empty_record emptySkeleton emptySkeleton (by decide)⟩

/-- C9: the load reads jointCount as a signed 32-bit value and tests it only
against zero, so a stream whose jointCount field is negative is not rejected
as empty: the load proceeds to read the charBytes field (a stream truncated
right after jointCount fails with a stream error on that read instead of
returning an empty store), and it calls `Allocate` with the negative count
converted to the unsigned 64-bit size 2^64 + jointCount, which exceeds 2^63
— the trace records exactly that one invocation with those arguments.  (The
byte size of the resulting allocation request is computed by the program in
wrapping `size_t` arithmetic at these huge counts and is not asserted.) -/
theorem negative_joint_count (s : Skeleton) (v c : Int) (rest : Stream)
    (h1 : -(2 ^ 31) ≤ v) (h2 : v < 0) :
    (load s 2 (Item.i32 v :: Item.i32 c :: rest)).2.allocCalls =
      [(toSizeT c, toSizeT v)] ∧
    (load s 2 [Item.i32 v]).1 = LoadStatus.streamError ∧
    (toSizeT v : Int) = 2 ^ 64 + v ∧
    2 ^ 63 < toSizeT v := by
  have hv0 : ¬v = 0 := by omega
  have hnj : ¬toSizeT v = 0 := by
    unfold toSizeT
    omega
  refine ⟨?_, ?_, by unfold toSizeT; omega, by unfold toSizeT; omega⟩
  · simp [load, readI32, Skeleton.deallocate, Skeleton.allocate,
      Skeleton.isEmptyViews, emptySkeleton, hv0, hnj]
  · simp [load, readI32, Skeleton.deallocate, hv0]

/-- Witness for C9 at jointCount −1 with charBytes 0. -/
theorem negative_joint_count_witness :
    (-(2 ^ 31) : Int) ≤ -1 ∧ (-1 : Int) < 0 ∧
    ((load emptySkeleton 2 [Item.i32 (-1), Item.i32 0]).2.allocCalls =
        [(toSizeT 0, toSizeT (-1))] ∧
    (load emptySkeleton 2 [Item.i32 (-1)]).1 = LoadStatus.streamError ∧
    (toSizeT (-1) : Int) = 2 ^ 64 + -1 ∧
    2 ^ 63 < toSizeT (-1)) :=
  ⟨by decide, by decide,
    negative_joint_count emptySkeleton (-1) 0 [] (by decide) (by decide)⟩

end OzzSkeleton

namespace OzzSkeleton

theorem save_mk (nm : List Byte) (rest : List (List Byte))
    (parents : List Int) (poses : List SoaTransform)
    (hz : ∀ x ∈ nm :: rest, 0 ∉ x)
    (hN : (nm :: rest).length ≤ 1000) :
    save (mkSkeleton (nm :: rest) parents poses) =
      Item.i32 ((nm :: rest).length : Int) ::
        Item.i32 (toInt32 ((flatLen (nm :: rest) : Nat) : Int)) ::
        ((flat (nm :: rest)).map Item.byte ++ parents.map Item.i16 ++
          poses.map Item.soa) := by
  have hsum : ((startOffsets 0 (nm :: rest)).map
      (fun off => cstrlen ((flat (nm :: rest)).drop off) + 1)).sum =
      flatLen (nm :: rest) :=
    sum_strlen_flat (nm :: rest) (flat (nm :: rest)) [] 0 hz (by simp)
  have hto : toInt32 (((nm :: rest).length : Nat) : Int) =
      ((nm :: rest).length : Int) := by
    refine toInt32_small _ (Int.natCast_nonneg _) ?_
    have hc : (((nm :: rest).length : Nat) : Int) ≤ 1000 := by
      exact_mod_cast hN
    omega
  have hne0 : ¬(((nm :: rest).length : Int) = 0) := by
    intro h
    have h' : (nm :: rest).length = 0 := by exact_mod_cast h
    simp at h'
  have htake : (flat (nm :: rest)).take (flatLen (nm :: rest)) =
      flat (nm :: rest) := by
    rw [← flat_length, List.take_length]
  have hh : (startOffsets 0 (nm :: rest)).headD 0 = 0 := by
    simp [startOffsets]
  simp only [save, mkSkeleton, Skeleton.num_joints, startOffsets_length,
    hto, hne0, if_false, hsum, hh, List.drop_zero, htake]

theorem load_mk (s0 : Skeleton) (nm : List Byte) (rest : List (List Byte))
    (parents : List Int) (poses : List SoaTransform)
    (hz : ∀ x ∈ nm :: rest, 0 ∉ x)
    (hN : (nm :: rest).length ≤ 1000)
    (hp : parents.length = (nm :: rest).length)
    (hq : poses.length = ((nm :: rest).length + 3) / 4)
    (hfit : flatLen (nm :: rest) < 2 ^ 31) :
    (load s0 2
      (Item.i32 ((nm :: rest).length : Int) ::
        Item.i32 ((flatLen (nm :: rest) : Nat) : Int) ::
        ((flat (nm :: rest)).map Item.byte ++ parents.map Item.i16 ++
          poses.map Item.soa))).1 =
      LoadStatus.ok (mkSkeleton (nm :: rest) parents poses) [] := by
  have hN0 : ¬(((nm :: rest).length : Int) = 0) := by
    intro h
    have h' : (nm :: rest).length = 0 := by exact_mod_cast h
    simp at h'
  have hszN : toSizeT ((nm :: rest).length : Int) = (nm :: rest).length := by
    rw [toSizeT_small _ (Int.natCast_nonneg _) (by
      have hc : (((nm :: rest).length : Nat) : Int) ≤ 1000 := by
        exact_mod_cast hN
      omega)]
    simp
  have hszC : toSizeT ((flatLen (nm :: rest) : Nat) : Int) =
      flatLen (nm :: rest) := by
    rw [toSizeT_small _ (Int.natCast_nonneg _) (by
      have hc : ((flatLen (nm :: rest) : Nat) : Int) < 2 ^ 31 := by
        exact_mod_cast hfit
      omega)]
    simp
  have halloc : (s0.deallocate).1.allocate (flatLen (nm :: rest))
      ((nm :: rest).length) =
      some
        ({ char_arena := List.replicate (flatLen (nm :: rest)) 0
           joint_names_ := List.replicate ((nm :: rest).length) 0
           joint_parents_ := List.replicate ((nm :: rest).length) 0
           joint_bind_poses_ :=
             List.replicate (((nm :: rest).length + 3) / 4) 0
           allocated := true },
         some (bind_poses_size ((nm :: rest).length) +
           names_size ((nm :: rest).length) +
           parents_size ((nm :: rest).length)),
         [(buffer_size (flatLen (nm :: rest)) ((nm :: rest).length),
           alignof_SoaTransform)]) := by
    simp [Skeleton.deallocate, Skeleton.allocate, emptySkeleton,
      Skeleton.isEmptyViews]
  have hbytes : readBytes (flatLen (nm :: rest))
      ((flat (nm :: rest)).map Item.byte ++
        (parents.map Item.i16 ++ poses.map Item.soa)) =
      some (flat (nm :: rest), parents.map Item.i16 ++ poses.map Item.soa) := by
    rw [← flat_length]
    exact readBytes_map _ _
  have hi16 : readI16s ((nm :: rest).length)
      (parents.map Item.i16 ++ poses.map Item.soa) =
      some (parents, poses.map Item.soa) := by
    rw [← hp]
    exact readI16s_map _ _
  have hsoa : readSoas (((nm :: rest).length + 3) / 4)
      (poses.map Item.soa) = some (poses, []) := by
    rw [← hq]
    simpa using readSoas_map poses []
  have hfix : fixupNames (flat (nm :: rest))
      (((((nm :: rest).length : Nat) : Int) - 1).toNat) =
      startOffsets 0 (nm :: rest) := by
    have h1 : (((((nm :: rest).length : Nat) : Int)) - 1).toNat =
        (nm :: rest).length - 1 := by omega
    rw [h1]
    exact fixupNames_flat _ (by simp) hz
  unfold load
  rw [if_neg (by simp : ¬((2 : Nat) ≠ 2))]
  simp only [readI32]
  rw [if_neg hN0]
  simp only [hszC, hszN, halloc, loadRest, List.append_assoc, hbytes,
    List.length_replicate, hi16, hsoa, hfix]
  simp [mkSkeleton]

end OzzSkeleton

namespace OzzSkeleton

/-- C1 (amended): for every store with jointCount ≤ 1000, NUL-free name
strings (empty names allowed), parent indices in [−1, N−1], the matching
number of bind-pose blocks, and a total character-region size (sum of name
lengths plus one terminator per joint) below 2^31 — so that the
chars_count field fits the signed 32-bit integer it is cast to — the load
of the saved stream reproduces the identical store (same jointCount, same
ordered name strings, same parent-index array, identical bind-pose block
array) and consumes the stream exactly. -/
theorem round_trip_amended (s0 : Skeleton) (names : List (List Byte))
    (parents : List Int) (poses : List SoaTransform)
    (hN : names.length ≤ 1000)
    (hz : ∀ nm ∈ names, 0 ∉ nm)
    (hp : parents.length = names.length)
    (hpr : ∀ p ∈ parents, -1 ≤ p ∧ p < (names.length : Int))
    (hq : poses.length = (names.length + 3) / 4)
    (hfit : flatLen names < 2 ^ 31) :
    (load s0 2 (save (mkSkeleton names parents poses))).1 =
      LoadStatus.ok (mkSkeleton names parents poses) [] ∧
    (mkSkeleton names parents poses).names = names ∧
    (mkSkeleton names parents poses).num_joints = names.length := by
  have hobs : (mkSkeleton names parents poses).names = names := by
    unfold Skeleton.names mkSkeleton
    exact names_map_flat names (flat names) [] 0 hz (by simp)
  have hcount : (mkSkeleton names parents poses).num_joints =
      names.length := by
    simp [mkSkeleton, Skeleton.num_joints, startOffsets_length]
  refine ⟨?_, hobs, hcount⟩
  cases names with
  | nil =>
    have hp0 : parents = [] := by
      rw [← List.length_eq_zero]
      simpa using hp
    have hq0 : poses = [] := by
      rw [← List.length_eq_zero]
      simp only [List.length_nil] at hq
      omega
    subst hp0
    subst hq0
    have hmk : mkSkeleton [] [] [] = emptySkeleton := rfl
    rw [hmk]
    have hsave : save emptySkeleton = [Item.i32 0] := by
      simp [save, toInt32_zero, emptySkeleton, Skeleton.num_joints]
    rw [hsave]
    simp [load, Skeleton.deallocate, readI32]
  | cons nm rest =>
    rw [save_mk nm rest parents poses hz hN]
    have hto : toInt32 ((flatLen (nm :: rest) : Nat) : Int) =
        ((flatLen (nm :: rest) : Nat) : Int) := by
      refine toInt32_small _ (Int.natCast_nonneg _) ?_
      exact_mod_cast hfit
    rw [hto]
    exact load_mk s0 nm rest parents poses hz hN hp hq hfit

/-- Witness for the amended C1 at a two-joint store with names "a" and ""
(the empty name), parents [−1, 0], one bind-pose block. -/
theorem round_trip_amended_witness :
    ([[97], []] : List (List Byte)).length ≤ 1000 ∧
    (∀ nm ∈ ([[97], []] : List (List Byte)), 0 ∉ nm) ∧
    ([-1, 0] : List Int).length = ([[97], []] : List (List Byte)).length ∧
    (∀ p ∈ ([-1, 0] : List Int),
      -1 ≤ p ∧ p < (([[97], []] : List (List Byte)).length : Int)) ∧
    ([7] : List SoaTransform).length =
      (([[97], []] : List (List Byte)).length + 3) / 4 ∧
    flatLen [[97], []] < 2 ^ 31 ∧
    ((load emptySkeleton 2 (save (mkSkeleton [[97], []] [-1, 0] [7]))).1 =
        LoadStatus.ok (mkSkeleton [[97], []] [-1, 0] [7]) [] ∧
      (mkSkeleton [[97], []] [-1, 0] [7]).names = [[97], []] ∧
      (mkSkeleton [[97], []] [-1, 0] [7]).num_joints = 2) :=
  ⟨by decide, by decide, by decide, by decide, by decide, by decide,
    round_trip_amended emptySkeleton [[97], []] [-1, 0] [7] (by decide)
      (by decide) (by decide) (by decide) (by decide) (by decide)⟩

end OzzSkeleton

namespace OzzSkeleton

theorem mk_num_joints (names : List (List Byte)) (parents : List Int)
    (poses : List SoaTransform) :
    (mkSkeleton names parents poses).num_joints = names.length := by
  simp [mkSkeleton, Skeleton.num_joints, startOffsets_length]

theorem flatLen_singleton (nm : List Byte) : flatLen [nm] = nm.length + 1 := by
  simp [flatLen]

theorem allocate_pos (s : Skeleton) (chars_size num_joints : Nat)
    (hs : s.isEmptyViews = true) (hn : ¬num_joints = 0) :
    s.allocate chars_size num_joints =
      some
        ({ char_arena := List.replicate chars_size 0
           joint_names_ := List.replicate num_joints 0
           joint_parents_ := List.replicate num_joints 0
           joint_bind_poses_ := List.replicate ((num_joints + 3) / 4) 0
           allocated := true },
         some (bind_poses_size num_joints + names_size num_joints +
           parents_size num_joints),
         [(buffer_size chars_size num_joints, alignof_SoaTransform)]) := by
  simp [Skeleton.allocate, hs, hn]

theorem loadRest_streamError (s : Skeleton) (cs : Nat) (nj : Int)
    (st : Stream) (h : readBytes cs st = none) :
    loadRest s cs nj st = LoadStatus.streamError := by
  unfold loadRest
  rw [h]

/-- C1 counterexample: a store within the claim's stated scope (jointCount
1 ≤ 1000, parent −1, one bind-pose block) whose single name holds 2^31 − 1
bytes.  The serialized character count is then 2^31, which wraps to −2^31
in the `static_cast<int32_t>` of `Save`; `Load` converts that back to the
unsigned size 2^64 − 2^31 and fails with a stream error instead of
reproducing the store, so the round trip as claimed (for arbitrary name
strings) is false. -/
theorem round_trip_overflow :
    (load emptySkeleton 2
        (save (mkSkeleton [List.replicate (2 ^ 31 - 1) 1] [-1] [0]))).1 =
      LoadStatus.streamError ∧
    (mkSkeleton [List.replicate (2 ^ 31 - 1) 1] [-1] [0]).num_joints = 1 ∧
    (mkSkeleton [List.replicate (2 ^ 31 - 1) 1] [-1] [0]).joint_parents_ =
      [-1] ∧
    (mkSkeleton [List.replicate (2 ^ 31 - 1) 1] [-1] [0]).joint_bind_poses_ =
      [0] := by
  refine ⟨?_, (mk_num_joints _ _ _).trans rfl, rfl, rfl⟩
  have hz : ∀ x ∈ [List.replicate (2 ^ 31 - 1) (1 : Nat)], (0 : Nat) ∉ x := by
    intro x hx
    simp only [List.mem_singleton] at hx
    subst hx
    intro hmem
    exact absurd (List.eq_of_mem_replicate hmem) (by decide)
  have hflat : flatLen [List.replicate (2 ^ 31 - 1) (1 : Nat)] = 2 ^ 31 := by
    rw [flatLen_singleton, List.length_replicate]
    omega
  have hN1 : ([List.replicate (2 ^ 31 - 1) (1 : Nat)] :
      List (List Byte)).length ≤ 1000 := by
    show (1 : Nat) ≤ 1000
    omega
  rw [save_mk (List.replicate (2 ^ 31 - 1) 1) [] [-1] [0] hz hN1]
  rw [hflat]
  have hlen1 : ([List.replicate (2 ^ 31 - 1) (1 : Nat)]).length = 1 := rfl
  rw [hlen1]
  have hneg : toInt32 ((2 ^ 31 : Nat) : Int) = -(2 ^ 31) := by
    norm_num [toInt32]
  rw [hneg]
  have hszC : toSizeT (-(2 ^ 31) : Int) = 2 ^ 64 - 2 ^ 31 := by
    unfold toSizeT
    omega
  have hszN : toSizeT ((1 : Nat) : Int) = 1 := by
    unfold toSizeT
    omega
  have halloc := allocate_pos (emptySkeleton.deallocate).1
    (2 ^ 64 - 2 ^ 31) 1 rfl (by decide)
  have hrb : readBytes (2 ^ 64 - 2 ^ 31)
      ((flat [List.replicate (2 ^ 31 - 1) (1 : Nat)]).map Item.byte ++
        (([-1] : List Int).map Item.i16 ++
          ([0] : List SoaTransform).map Item.soa)) = none := by
    apply readBytes_short
    simp only [List.length_append, List.length_map, flat_length, hflat,
      List.length_cons, List.length_nil]
    norm_num
  unfold load
  rw [if_neg (by simp : ¬((2 : Nat) ≠ 2))]
  simp only [readI32]
  rw [if_neg (by simp : ¬(((1 : Nat) : Int) = 0))]
  simp only [hszC, hszN, halloc, List.append_assoc]
  exact loadRest_streamError _ _ _ _ hrb

end OzzSkeleton
